import Mathlib

/-!
Verification development for the dev3000 repository: a shallow embedding of
the CLI entry point (global-install guard, option handling, circular-dependency
check, kill-mcp handling, profile-directory derivation) together with
spec-modelled embeddings of the core components that the repository snapshot
does not include under src (unified logger, session coordinator readiness
state machine, shutdown sequencing, event normalizer, timestamp formatting).
-/

namespace Dev3000

/-! ## String helpers (JavaScript `String.prototype.includes` and path join) -/

/-- Boolean test that `needle` occurs as a contiguous sublist of `hay`. -/
def listInfixB (needle : List Char) : List Char → Bool
  | [] => needle.isEmpty
  | b :: bs => needle.isPrefixOf (b :: bs) || listInfixB needle bs

/-- JavaScript `hay.includes(needle)`: substring containment. -/
def strIncludes (hay needle : String) : Bool :=
  listInfixB needle.data hay.data

/-- Node `path.join` on already-normalized segments: interleave with `/`. -/
def joinPath : List String → String
  | [] => ""
  | [p] => p
  | p :: rest => p ++ "/" ++ joinPath rest

/-- A JavaScript regex word character, as in `\b` boundaries: `[A-Za-z0-9_]`. -/
def isWordChar (c : Char) : Bool :=
  (c ≥ 'a' && c ≤ 'z') || (c ≥ 'A' && c ≤ 'Z') || (c ≥ '0' && c ≤ '9') || c = '_'

/-- Test of the regex `\bd3k\b` on a character list. The first argument is
true when the previous character (or start of string) is a non-word
character, i.e. a word boundary is open before the current position. -/
def hasD3kWord : Bool → List Char → Bool
  | _, [] => false
  | prevBoundary, c :: rest =>
    (prevBoundary && c = 'd' &&
      (match rest with
       | '3' :: 'k' :: rest2 =>
         (match rest2 with
          | [] => true
          | c2 :: _ => !isWordChar c2)
       | _ => false))
    || hasD3kWord (!isWordChar c) rest

/-! ## CLI embedding (src/unnamed/part_001) -/

/-- The project types produced by detectProjectType. -/
inductive ProjType
  | node
  | python
  | rails
deriving DecidableEq, Repr

/-- The fields of detectProjectType's ProjectConfig that the action handler
reads. -/
structure ProjectConfig where
  type : ProjType
  packageManager : String
  pythonCommand : String
  defaultScript : String
  defaultPort : String
deriving DecidableEq, Repr

/-- The commander options the action handler reads. -/
structure CliOptions where
  killMcp : Bool
  command : Option String
  script : Option String
  port : Option String
  serversOnly : Bool
deriving DecidableEq, Repr

/-- checkGlobalInstall from part_001 lines 173-207: true when the package
root lies under a recognized global install path, or is inside node_modules
with no package.json three directories up, or is not inside node_modules at
all; false otherwise. `pkgJsonThreeUp` is
`existsSync(join(packageRoot, "..", "..", "..", "package.json"))`. -/
def checkGlobalInstall (packageRoot : String) (globalPaths : List String)
    (pkgJsonThreeUp : Bool) : Bool :=
  if globalPaths.any (fun g => strIncludes packageRoot g) then true
  else if strIncludes packageRoot "node_modules" && !pkgJsonThreeUp then true
  else if !(strIncludes packageRoot "node_modules") then true
  else false

/-- The predicate of the circular-dependency check, part_001 line 301:
`scriptContent.includes("dev3000") || /\bd3k\b/.test(scriptContent)`. -/
def scriptInvokesD3k (content : String) : Bool :=
  strIncludes content "dev3000" || hasD3kWord true content.data

/-- The circular-dependency guard, part_001 lines 293-324. It fires only for
node projects without a custom command, when package.json was readable
(`scripts ≠ none`) and the selected script's content invokes dev3000/d3k. -/
def circularDetected (o : CliOptions) (p : ProjectConfig)
    (scripts : Option (List (String × String))) (script : String) : Bool :=
  p.type = ProjType.node && o.command.isNone &&
    (match scripts with
     | none => false
     | some sl =>
       match sl.lookup script with
       | some content => scriptInvokesD3k content
       | none => false)

/-- Server command generation, part_001 lines 277-291. -/
def serverCommandOf (o : CliOptions) (p : ProjectConfig) (script : String) : String :=
  match o.command with
  | some c => c
  | none =>
    match p.type with
    | ProjType.python => p.pythonCommand ++ " " ++ script
    | ProjType.rails => "bundle exec rails " ++ script
    | ProjType.node => p.packageManager ++ " run " ++ script

/-- Outcome of running the CLI entry point. `installError` is reached before
commander parses any option and before any project detection; `killMcpExit`
records whether a listener on port 3684 was killed and the exit code;
`circularExit` is reached before startDevEnvironment; `started` carries the
resolved launch data handed to startDevEnvironment. -/
inductive CliOutcome
  | installError (code : Nat)
  | killMcpExit (killed : Bool) (code : Nat)
  | circularExit (code : Nat)
  | started (serverCommand : String) (port : String) (script : String) (serversOnly : Bool)
deriving DecidableEq, Repr

/-- The kill step of the kill-mcp handler, part_001 lines 255-259: spawn
`lsof -ti:3684 | xargs kill -9` and resolve on exit whether or not a
listener existed; the result records whether something was killed. -/
def killPort3684 (mcpListening : Bool) : Bool := mcpListening

/-- program.action from part_001 lines 251-369: kill-mcp handling first,
then option defaulting, then the circular-dependency guard, then the call
to startDevEnvironment. `mcpListening` states whether a process was
listening on port 3684; `scripts` is the package.json scripts table when
readable. -/
def programAction (mcpListening : Bool) (o : CliOptions) (p : ProjectConfig)
    (scripts : Option (List (String × String))) : CliOutcome :=
  if o.killMcp then
    CliOutcome.killMcpExit (killPort3684 mcpListening) 0
  else
    let port := o.port.getD p.defaultPort
    let script := o.script.getD p.defaultScript
    let cmd := serverCommandOf o p script
    if circularDetected o p scripts script then CliOutcome.circularExit 1
    else CliOutcome.started cmd port script o.serversOnly

/-- Top level of part_001: the global-install guard at lines 210-219 runs
before `new Command()` is constructed and before `program.parse()`; only
when it passes does the action handler run. -/
def cliMain (packageRoot : String) (globalPaths : List String)
    (pkgJsonThreeUp : Bool) (mcpListening : Bool) (o : CliOptions)
    (p : ProjectConfig) (scripts : Option (List (String × String))) : CliOutcome :=
  if checkGlobalInstall packageRoot globalPaths pkgJsonThreeUp then
    programAction mcpListening o p scripts
  else CliOutcome.installError 1

/-- Profile directory derivation, part_001 line 343:
`join(homedir(), ".d3k", "chrome-profiles", projectName)`. -/
def profileDir (home projectName : String) : String :=
  joinPath [home, ".d3k", "chrome-profiles", projectName]

/-! ## Timestamps

Modelled from the spec: the logger implementation is not part of the
snapshot under src, so timestamp formatting is modelled from section 4.1
(`local` maps to a locale time string such as `12:54:03 PM`, `utc` to an
ISO-8601 string, matching the option help text in part_001 lines 243-247). -/

/-- Digit character for a value below ten (values ten and above clamp). -/
def dChar : Nat → Char
  | 0 => '0'
  | 1 => '1'
  | 2 => '2'
  | 3 => '3'
  | 4 => '4'
  | 5 => '5'
  | 6 => '6'
  | 7 => '7'
  | 8 => '8'
  | _ => '9'

/-- Numeric value of a digit character, none on anything else. -/
def dVal (c : Char) : Option Nat :=
  if c.isDigit then some (c.toNat - 48) else none

/-- Two-digit zero-padded decimal rendering. -/
def pad2 (n : Nat) : List Char := [dChar (n / 10), dChar (n % 10)]

/-- Three-digit zero-padded decimal rendering. -/
def pad3 (n : Nat) : List Char := [dChar (n / 100), dChar (n / 10 % 10), dChar (n % 10)]

/-- Four-digit zero-padded decimal rendering. -/
def pad4 (n : Nat) : List Char :=
  [dChar (n / 1000), dChar (n / 100 % 10), dChar (n / 10 % 10), dChar (n % 10)]

/-- Calendar clock reading observed when an event is appended. -/
structure ClockTime where
  year : Nat
  month : Nat
  day : Nat
  hour : Nat
  minute : Nat
  second : Nat
  ms : Nat
deriving DecidableEq, Repr

/-- Field ranges of a real clock reading. -/
def ClockTime.valid (t : ClockTime) : Prop :=
  t.year < 10000 ∧ 1 ≤ t.month ∧ t.month ≤ 12 ∧ 1 ≤ t.day ∧ t.day ≤ 31 ∧
    t.hour < 24 ∧ t.minute < 60 ∧ t.second < 60 ∧ t.ms < 1000

instance (t : ClockTime) : Decidable t.valid := by
  unfold ClockTime.valid
  infer_instance

/-- Modelled from the spec: `dateTimeFormat=utc` renders the timestamp as an
ISO-8601 string in the shape produced by `Date.prototype.toISOString`,
`YYYY-MM-DDTHH:MM:SS.mmmZ`. -/
def formatUtc (t : ClockTime) : String :=
  ⟨pad4 t.year ++ '-' :: pad2 t.month ++ '-' :: pad2 t.day ++ 'T' :: pad2 t.hour ++
    ':' :: pad2 t.minute ++ ':' :: pad2 t.second ++ '.' :: pad3 t.ms ++ ['Z']⟩

/-- Hour on the twelve-hour dial used by locale time strings. -/
def localHour12 (t : ClockTime) : Nat :=
  if t.hour % 12 = 0 then 12 else t.hour % 12

/-- Modelled from the spec: `dateTimeFormat=local` renders the timestamp as
a locale time string in the shape of the option help text of part_001,
`12:54:03 PM` (no leading zero on the hour). -/
def formatLocal (t : ClockTime) : String :=
  ⟨(if localHour12 t < 10 then [dChar (localHour12 t)] else pad2 (localHour12 t)) ++
    ':' :: pad2 t.minute ++ ':' :: pad2 t.second ++
    ' ' :: (if t.hour < 12 then ['A', 'M'] else ['P', 'M'])⟩

/-- Combine two digit characters into a number below one hundred. -/
def parse2 (c1 c2 : Char) : Option Nat :=
  match dVal c1, dVal c2 with
  | some d1, some d2 => some (d1 * 10 + d2)
  | _, _ => none

/-- Combine three digit characters into a number below one thousand. -/
def parse3 (c1 c2 c3 : Char) : Option Nat :=
  match dVal c1, dVal c2, dVal c3 with
  | some d1, some d2, some d3 => some (d1 * 100 + d2 * 10 + d3)
  | _, _, _ => none

/-- Combine four digit characters into a number below ten thousand. -/
def parse4 (c1 c2 c3 c4 : Char) : Option Nat :=
  match dVal c1, dVal c2, dVal c3, dVal c4 with
  | some d1, some d2, some d3, some d4 => some (d1 * 1000 + d2 * 100 + d3 * 10 + d4)
  | _, _, _, _ => none

/-- Parser of ISO-8601 timestamps in the `toISOString` shape, with field
range checks; returns the parsed clock reading on success. -/
def parseIso (s : String) : Option ClockTime :=
  match s.data with
  | y1 :: y2 :: y3 :: y4 :: c1 :: m1 :: m2 :: c2 :: d1 :: d2 :: c3 :: h1 :: h2 :: c4 ::
      mi1 :: mi2 :: c5 :: s1 :: s2 :: c6 :: x1 :: x2 :: x3 :: c7 :: rest =>
    if c1 = '-' ∧ c2 = '-' ∧ c3 = 'T' ∧ c4 = ':' ∧ c5 = ':' ∧ c6 = '.' ∧ c7 = 'Z' ∧
        rest = [] then
      match parse4 y1 y2 y3 y4, parse2 m1 m2, parse2 d1 d2, parse2 h1 h2,
          parse2 mi1 mi2, parse2 s1 s2, parse3 x1 x2 x3 with
      | some y, some mo, some d, some h, some mi, some se, some x =>
        if 1 ≤ mo ∧ mo ≤ 12 ∧ 1 ≤ d ∧ d ≤ 31 ∧ h < 24 ∧ mi < 60 ∧ se < 60 then
          some ⟨y, mo, d, h, mi, se, x⟩
        else none
      | _, _, _, _, _, _, _ => none
    else none
  | _ => none

/-- Meridiem flag of a locale time string suffix character. -/
def meridiem : Char → Option Bool
  | 'A' => some false
  | 'P' => some true
  | _ => none

/-- Parser of locale time strings in the `12:54:03 PM` shape; returns the
twelve-hour reading and a PM flag on success. -/
def parseLocalTime (s : String) : Option (Nat × Nat × Nat × Bool) :=
  match s.data with
  | [h1, c1, mi1, mi2, c2, s1, s2, c3, a, m] =>
    match dVal h1, parse2 mi1 mi2, parse2 s1 s2, meridiem a with
    | some h, some mi, some se, some pm =>
      if c1 = ':' ∧ c2 = ':' ∧ c3 = ' ' ∧ m = 'M' ∧ 1 ≤ h ∧ mi < 60 ∧ se < 60 then
        some (h, mi, se, pm)
      else none
    | _, _, _, _ => none
  | [h1, h2, c1, mi1, mi2, c2, s1, s2, c3, a, m] =>
    match parse2 h1 h2, parse2 mi1 mi2, parse2 s1 s2, meridiem a with
    | some h, some mi, some se, some pm =>
      if c1 = ':' ∧ c2 = ':' ∧ c3 = ' ' ∧ m = 'M' ∧ 10 ≤ h ∧ h ≤ 12 ∧ mi < 60 ∧ se < 60 then
        some (h, mi, se, pm)
      else none
    | _, _, _, _ => none
  | _ => none

/-! ## Unified Logger (spec section 4.1) -/

/-- Source tag of a log entry. -/
inductive Source
  | SERVER
  | BROWSER
  | SYSTEM
deriving DecidableEq, Repr

/-- Event type tag of a log entry. -/
inductive EventType
  | STDOUT
  | STDERR
  | CONSOLE_LOG
  | CONSOLE_ERROR
  | NETWORK_REQUEST
  | NETWORK_RESPONSE
  | NAVIGATION
  | SCREENSHOT
  | CRASH
  | LIFECYCLE
deriving DecidableEq, Repr

/-- A persisted log entry: formatted timestamp, source, event type, message. -/
structure LogEntry where
  timestamp : String
  source : Source
  eventType : EventType
  message : String
deriving DecidableEq, Repr

/-- Timestamp format selected by the `--date-time` option; `localTime`
models the `local` value, `utc` the `utc` value. -/
inductive DateTimeFormat
  | localTime
  | utc
deriving DecidableEq, Repr

/-- Format a clock reading per the configured mode. -/
def formatTimestamp : DateTimeFormat → ClockTime → String
  | DateTimeFormat.localTime, t => formatLocal t
  | DateTimeFormat.utc, t => formatUtc t

/-- A raw event handed to the logger: observation time, source, type,
message. -/
structure RawEvent where
  time : ClockTime
  source : Source
  eventType : EventType
  message : String
deriving DecidableEq, Repr

/-- The log entry the logger writes for a raw event. -/
def mkEntry (fmt : DateTimeFormat) (e : RawEvent) : LogEntry :=
  { timestamp := formatTimestamp fmt e.time
    source := e.source
    eventType := e.eventType
    message := e.message }

/-- Modelled from the spec: the logger implementation is absent from src;
section 4.1 says `append(entry)` formats the timestamp per the configured
mode and writes one line at the end of the log file, never mutating or
deleting earlier lines. The file is the list of written entries. -/
def Logger.append (fmt : DateTimeFormat) (file : List LogEntry) (e : RawEvent) :
    List LogEntry :=
  file ++ [mkEntry fmt e]

/-- Run a sequence of append calls from the single control thread against
an initially empty log file. -/
def Logger.appendAll (fmt : DateTimeFormat) (events : List RawEvent) : List LogEntry :=
  events.foldl (Logger.append fmt) []

/-- Modelled from the spec: reading the persisted log file back yields the
written lines in file order. -/
def readLog (file : List LogEntry) : List LogEntry := file

/-! ## Session Coordinator readiness (spec section 4.5) -/

/-- States of the Session Coordinator state machine. -/
inductive CoordState
  | INIT
  | STARTING_SERVER
  | WAITING_READY
  | LAUNCHING_BROWSER
  | MONITORING
  | SHUTTING_DOWN
  | TERMINATED
  | FAILED
deriving DecidableEq, Repr

/-- Modelled from the spec: the Session Coordinator implementation is absent
from src; section 4.5 says the coordinator in `WAITING_READY` moves on upon
readiness detection (explicit marker on stdout or port-poll success) and
times out to `FAILED` after a bounded wait, and `LAUNCHING_BROWSER` passes
to `MONITORING` on launch or immediately in servers-only mode, which this
model collapses into a direct step to `MONITORING`. The state is given at
each discrete tick, starting in `WAITING_READY` after a successful spawn;
`marker t` states that the ready marker was observed on stdout during tick
`t`, `portOpen t` that the port poll succeeded during tick `t`. -/
def coordAt (marker portOpen : Nat → Bool) (timeout : Nat) : Nat → CoordState
  | 0 => CoordState.WAITING_READY
  | t + 1 =>
    match coordAt marker portOpen timeout t with
    | CoordState.WAITING_READY =>
      if marker t || portOpen t then CoordState.MONITORING
      else if timeout ≤ t + 1 then CoordState.FAILED
      else CoordState.WAITING_READY
    | s => s

/-! ## Shutdown sequencing (spec sections 4.5 and 5) -/

/-- Observable teardown effects of a session: whether teardown has begun,
and how many times the browser was closed and the server process killed. -/
structure SessionTeardown where
  shuttingDown : Bool
  browserCloses : Nat
  serverKills : Nat
deriving DecidableEq, Repr

/-- The live session before any termination request. -/
def SessionTeardown.init : SessionTeardown := ⟨false, 0, 0⟩

/-- Modelled from the spec: the shutdown handler is absent from src;
sections 4.5 and 8 say only the first termination request triggers the
teardown sequence (browser closed, then server killed) and every later
request is a no-op. -/
def shutdownRequest (s : SessionTeardown) : SessionTeardown :=
  if s.shuttingDown then s
  else ⟨true, s.browserCloses + 1, s.serverKills + 1⟩

/-- Session state after `n` termination requests. -/
def shutdownRequests : Nat → SessionTeardown
  | 0 => SessionTeardown.init
  | n + 1 => shutdownRequest (shutdownRequests n)

/-! ## Session actions (spec sections 4.3 and 4.5, servers-only mode) -/

/-- A line of dev-server output with its observation time. -/
structure ServerLine where
  time : ClockTime
  stderr : Bool
  text : String
deriving DecidableEq, Repr

/-- A raw monitored-browser event with its observation time. -/
structure BrowserRaw where
  time : ClockTime
  ty : EventType
  message : String
deriving DecidableEq, Repr

/-- The launch configuration fields the session trace depends on. -/
structure SessionConfig where
  serverCommand : String
  profileDirPath : String
  serversOnly : Bool
deriving DecidableEq, Repr

/-- The raw event the logger receives for a dev-server output line. -/
def serverLineEvent (l : ServerLine) : RawEvent :=
  ⟨l.time, Source.SERVER, if l.stderr then EventType.STDERR else EventType.STDOUT, l.text⟩

/-- The raw event the logger receives for a monitored-browser event. -/
def browserRawEvent (b : BrowserRaw) : RawEvent :=
  ⟨b.time, Source.BROWSER, b.ty, b.message⟩

/-- Externally observable actions of one session run. -/
inductive SessionAction
  | spawnServer (cmd : String)
  | spawnBrowser (profile : String)
  | logEntry (e : LogEntry)
deriving DecidableEq, Repr

/-- Modelled from the spec: startDevEnvironment is absent from src; the
data-flow of sections 2 and 4.3 says the supervisor spawns the dev server
and mirrors its stdio into the logger with source `SERVER`, while the
browser-session controller is skipped entirely in servers-only mode and
otherwise spawns the browser whose monitored events reach the logger with
source `BROWSER`. -/
def sessionActions (cfg : SessionConfig) (fmt : DateTimeFormat)
    (serverOut : List ServerLine) (browserEvents : List BrowserRaw) :
    List SessionAction :=
  SessionAction.spawnServer cfg.serverCommand ::
    ((serverOut.map fun l => SessionAction.logEntry (mkEntry fmt (serverLineEvent l))) ++
      (if cfg.serversOnly then []
       else SessionAction.spawnBrowser cfg.profileDirPath ::
         browserEvents.map fun b => SessionAction.logEntry (mkEntry fmt (browserRawEvent b))))

/-! ## Event Normalizer network pairing (spec section 4.4) -/

/-- A raw network protocol event: request start or response completion,
correlated by request identifier. -/
inductive NetEvent
  | request (id : Nat) (method url : String) (time : Nat)
  | response (id : Nat) (status : Nat) (time : Nat)
deriving DecidableEq, Repr

/-- A request seen but not yet answered. -/
structure PendingReq where
  id : Nat
  method : String
  url : String
  startTime : Nat
deriving DecidableEq, Repr

/-- A normalized network log entry: a request/response pair carrying method,
URL, status and timing, or an incomplete request logged at shutdown. -/
inductive NetEntry
  | paired (id : Nat) (method url : String) (status : Nat) (startTime endTime : Nat)
  | incomplete (id : Nat) (method url : String) (startTime : Nat)
deriving DecidableEq, Repr

/-- Modelled from the spec: the Event Normalizer implementation is absent
from src; section 4.4 says request and response are correlated by request
identifier and emitted as one paired entry with method, URL, status and
timing when the response arrives, and a request with no observed response
before session end is logged once, at shutdown, as incomplete. The second
argument carries the requests still awaiting a response. -/
def normalizeNet : List NetEvent → List PendingReq → List NetEntry
  | [], pending =>
    pending.map fun p => NetEntry.incomplete p.id p.method p.url p.startTime
  | NetEvent.request i m u t :: rest, pending =>
    normalizeNet rest (pending ++ [⟨i, m, u, t⟩])
  | NetEvent.response i s t :: rest, pending =>
    match pending.find? (fun p => p.id == i) with
    | some p =>
      NetEntry.paired p.id p.method p.url s p.startTime t ::
        normalizeNet rest (pending.eraseP (fun p => p.id == i))
    | none => normalizeNet rest pending

/-- Test of a paired entry with a given request identifier. -/
def isPairedWith (r : Nat) : NetEntry → Bool
  | NetEntry.paired i _ _ _ _ _ => i == r
  | _ => false

/-- Test of an incomplete entry with a given request identifier. -/
def isIncompleteWith (r : Nat) : NetEntry → Bool
  | NetEntry.incomplete i _ _ _ => i == r
  | _ => false

/-- Number of request events with a given identifier. -/
def reqCount (events : List NetEvent) (r : Nat) : Nat :=
  events.countP fun e =>
    match e with
    | NetEvent.request i _ _ _ => i == r
    | _ => false

/-- Whether some response event carries a given identifier. -/
def hasRespFor (events : List NetEvent) (r : Nat) : Bool :=
  events.any fun e =>
    match e with
    | NetEvent.response i _ _ => i == r
    | _ => false

/-- Number of pending requests with a given identifier. -/
def pendCount (pending : List PendingReq) (r : Nat) : Nat :=
  pending.countP fun p => p.id == r

/-- Modelled from the spec: startDevEnvironment and the shutdown path are
absent from src; section 6 says the process exit code is 0 on clean
shutdown. -/
def exitCodeOnCleanShutdown : Nat := 0

/-! ## Theorems -/

/-- C9: whenever checkGlobalInstall returns false — the package root lies
inside a node_modules directory that matches no recognized global install
path while a package.json exists three directories above — the CLI ends in
the installation-error outcome with exit code 1, an outcome reached before
commander parses any option and before any dev environment starts. -/
theorem c9_global_install_guard (packageRoot : String) (globalPaths : List String)
    (pkgJsonThreeUp mcpListening : Bool) (o : CliOptions) (p : ProjectConfig)
    (scripts : Option (List (String × String)))
    (h : checkGlobalInstall packageRoot globalPaths pkgJsonThreeUp = false) :
    cliMain packageRoot globalPaths pkgJsonThreeUp mcpListening o p scripts =
      CliOutcome.installError 1 := by
  simp [cliMain, h]

/-- Witness for C9 at a package root inside a project's node_modules with a
package.json three directories above. -/
theorem c9_global_install_guard_witness :
    checkGlobalInstall "/home/u/proj/node_modules/dev3000/dist"
        ["/usr/local/lib/node_modules", "/usr/lib/node_modules"] true = false ∧
      cliMain "/home/u/proj/node_modules/dev3000/dist"
        ["/usr/local/lib/node_modules", "/usr/lib/node_modules"] true false
        ⟨false, none, none, none, false⟩
        ⟨ProjType.node, "npm", "python3", "dev", "3000"⟩ none =
        CliOutcome.installError 1 :=
  ⟨by decide, c9_global_install_guard _ _ _ _ _ _ _ (by decide)⟩

/-- C10: with --kill-mcp set, the action handler kills any listener on port
3684 and exits with code 0 whether or not a server was listening, in an
outcome reached before project detection, the circular-dependency check, or
any dev-environment start. -/
theorem c10_kill_mcp_exits_zero (mcpListening : Bool) (o : CliOptions)
    (p : ProjectConfig) (scripts : Option (List (String × String)))
    (h : o.killMcp = true) :
    programAction mcpListening o p scripts =
      CliOutcome.killMcpExit mcpListening 0 := by
  simp [programAction, h, killPort3684]

/-- Witness for C10 both with and without a listener on port 3684. -/
theorem c10_kill_mcp_exits_zero_witness :
    (⟨true, none, none, none, false⟩ : CliOptions).killMcp = true ∧
      programAction true ⟨true, none, none, none, false⟩
          ⟨ProjType.node, "npm", "python3", "dev", "3000"⟩ none =
        CliOutcome.killMcpExit true 0 ∧
      programAction false ⟨true, none, none, none, false⟩
          ⟨ProjType.node, "npm", "python3", "dev", "3000"⟩ none =
        CliOutcome.killMcpExit false 0 :=
  ⟨rfl, c10_kill_mcp_exits_zero true _ _ _ rfl, c10_kill_mcp_exits_zero false _ _ _ rfl⟩

/-- C3: for a node project without a custom command whose package.json
script for the selected script name contains "dev3000" or matches the word
"d3k", the action handler ends in the circular-dependency outcome with exit
code 1 — a non-zero code, in an outcome reached before startDevEnvironment
— while the exit code on clean shutdown is 0. -/
theorem c3_circular_dependency_exit (mcpListening : Bool) (o : CliOptions)
    (p : ProjectConfig) (sl : List (String × String)) (content : String)
    (hkill : o.killMcp = false) (hnode : p.type = ProjType.node)
    (hcmd : o.command = none)
    (hs : sl.lookup (o.script.getD p.defaultScript) = some content)
    (hinv : scriptInvokesD3k content = true) :
    programAction mcpListening o p (some sl) = CliOutcome.circularExit 1 ∧
      (1 : Nat) ≠ 0 ∧ exitCodeOnCleanShutdown = 0 := by
  refine ⟨?_, by decide, rfl⟩
  have hcirc : circularDetected o p (some sl) (o.script.getD p.defaultScript) = true := by
    simp [circularDetected, hnode, hcmd, hs, hinv]
  simp [programAction, hkill, hcirc]

/-- Witness for C3 at a package.json whose dev script invokes d3k. -/
theorem c3_circular_dependency_exit_witness :
    (⟨false, none, none, none, false⟩ : CliOptions).killMcp = false ∧
      (⟨ProjType.node, "pnpm", "python3", "dev", "3000"⟩ : ProjectConfig).type =
        ProjType.node ∧
      ([("dev", "d3k --port 4000")].lookup
          ((none : Option String).getD "dev") = some "d3k --port 4000") ∧
      scriptInvokesD3k "d3k --port 4000" = true ∧
      (programAction false ⟨false, none, none, none, false⟩
          ⟨ProjType.node, "pnpm", "python3", "dev", "3000"⟩
          (some [("dev", "d3k --port 4000")]) = CliOutcome.circularExit 1 ∧
        (1 : Nat) ≠ 0 ∧ exitCodeOnCleanShutdown = 0) :=
  ⟨rfl, rfl, by decide, by decide,
    c3_circular_dependency_exit false ⟨false, none, none, none, false⟩
      ⟨ProjType.node, "pnpm", "python3", "dev", "3000"⟩
      [("dev", "d3k --port 4000")] "d3k --port 4000" rfl rfl rfl (by decide) (by decide)⟩

/-- C8: the browser profile directory is a deterministic function of project
identity — for a fixed home directory, two invocations compute the same
profileDir exactly when the project names coincide, so equal names reuse
the directory and distinct names get distinct directories. -/
theorem c8_profile_dir_project_identity (home n1 n2 : String) :
    profileDir home n1 = profileDir home n2 ↔ n1 = n2 := by
  constructor
  · intro h
    have hd := congrArg String.data h
    simp only [profileDir, joinPath, String.data_append, List.append_assoc,
      List.cons_append, List.nil_append] at hd
    have h1 := List.append_cancel_left hd
    simp only [List.cons.injEq, true_and] at h1
    exact String.ext h1
  · intro h
    rw [h]

/-- Formatted timestamps are never the empty string, in either mode. -/
theorem formatTimestamp_ne_empty (fmt : DateTimeFormat) (t : ClockTime) :
    formatTimestamp fmt t ≠ "" := by
  cases fmt
  · simp only [formatTimestamp, formatLocal, pad2, ne_eq, String.ext_iff]
    split <;> simp
  · simp only [formatTimestamp, formatUtc, pad2, pad3, pad4, ne_eq, String.ext_iff]
    simp

/-- Appending a sequence of raw events writes exactly their entries in
call order. -/
theorem appendAll_eq_map (fmt : DateTimeFormat) (events : List RawEvent) :
    Logger.appendAll fmt events = events.map (mkEntry fmt) := by
  have h : ∀ (evs : List RawEvent) (acc : List LogEntry),
      evs.foldl (Logger.append fmt) acc = acc ++ evs.map (mkEntry fmt) := by
    intro evs
    induction evs with
    | nil => intro acc; simp
    | cons e rest ih => intro acc; simp [Logger.append, ih]
  simpa [Logger.appendAll] using h events []

/-- C1: for every finite sequence of append calls from the single control
thread, reading the persisted log back yields exactly the appended entries
in the same order, and every entry read back has a non-empty timestamp, a
source among SERVER, BROWSER and SYSTEM, and an eventType in the declared
enum. -/
theorem c1_logger_append_order_invariants (fmt : DateTimeFormat)
    (events : List RawEvent) :
    readLog (Logger.appendAll fmt events) = events.map (mkEntry fmt) ∧
      ∀ e ∈ readLog (Logger.appendAll fmt events),
        e.timestamp ≠ "" ∧
          (e.source = Source.SERVER ∨ e.source = Source.BROWSER ∨
            e.source = Source.SYSTEM) ∧
          (e.eventType = EventType.STDOUT ∨ e.eventType = EventType.STDERR ∨
            e.eventType = EventType.CONSOLE_LOG ∨
            e.eventType = EventType.CONSOLE_ERROR ∨
            e.eventType = EventType.NETWORK_REQUEST ∨
            e.eventType = EventType.NETWORK_RESPONSE ∨
            e.eventType = EventType.NAVIGATION ∨
            e.eventType = EventType.SCREENSHOT ∨
            e.eventType = EventType.CRASH ∨
            e.eventType = EventType.LIFECYCLE) := by
  refine ⟨by rw [readLog, appendAll_eq_map], ?_⟩
  intro e he
  rw [readLog, appendAll_eq_map] at he
  obtain ⟨a, _, rfl⟩ := List.mem_map.mp he
  refine ⟨formatTimestamp_ne_empty fmt a.time, ?_, ?_⟩
  · cases h : a.source <;> simp [mkEntry, h]
  · cases h : a.eventType <;> simp [mkEntry, h]

/-- Requests one and later leave the fully-torn-down session unchanged. -/
theorem shutdownRequests_succ_eq (m : Nat) :
    shutdownRequests (m + 1) = SessionTeardown.mk true 1 1 := by
  induction m with
  | zero => decide
  | succ k ih =>
    rw [shutdownRequests, ih]
    decide

/-- C4: shutdown is idempotent — after any positive number of termination
requests the browser was closed exactly once and the server killed exactly
once, and a further request is a no-op. -/
theorem c4_shutdown_idempotent (n : Nat) (h : 1 ≤ n) :
    shutdownRequests n = SessionTeardown.mk true 1 1 ∧
      shutdownRequest (shutdownRequests n) = shutdownRequests n := by
  obtain ⟨m, rfl⟩ : ∃ m, n = m + 1 := ⟨n - 1, by omega⟩
  refine ⟨shutdownRequests_succ_eq m, ?_⟩
  rw [shutdownRequests_succ_eq m]
  decide

/-- Witness for C4 at two termination requests. -/
theorem c4_shutdown_idempotent_witness :
    1 ≤ 2 ∧
      (shutdownRequests 2 = SessionTeardown.mk true 1 1 ∧
        shutdownRequest (shutdownRequests 2) = shutdownRequests 2) :=
  ⟨by decide, c4_shutdown_idempotent 2 (by decide)⟩

/-- C5: in servers-only mode no browser process is ever spawned during the
session, and no BROWSER-sourced entry appears among the logged entries. -/
theorem c5_servers_only_no_browser (cfg : SessionConfig) (fmt : DateTimeFormat)
    (serverOut : List ServerLine) (browserEvents : List BrowserRaw)
    (h : cfg.serversOnly = true) :
    (∀ profile, SessionAction.spawnBrowser profile ∉
        sessionActions cfg fmt serverOut browserEvents) ∧
      ∀ e, SessionAction.logEntry e ∈ sessionActions cfg fmt serverOut browserEvents →
        e.source ≠ Source.BROWSER := by
  constructor
  · intro profile hmem
    simp [sessionActions, h] at hmem
  · intro e hmem
    simp [sessionActions, h] at hmem
    obtain ⟨l, _, rfl⟩ := hmem
    simp [mkEntry, serverLineEvent]

/-- Witness for C5 at a servers-only session with one stdout line. -/
theorem c5_servers_only_no_browser_witness :
    (⟨"npm run dev", "/home/u/.d3k/chrome-profiles/p", true⟩ : SessionConfig).serversOnly =
        true ∧
      ((∀ profile, SessionAction.spawnBrowser profile ∉
          sessionActions ⟨"npm run dev", "/home/u/.d3k/chrome-profiles/p", true⟩
            DateTimeFormat.utc [⟨⟨2026, 10, 11, 1, 2, 3, 4⟩, false, "ready"⟩] []) ∧
        ∀ e, SessionAction.logEntry e ∈
            sessionActions ⟨"npm run dev", "/home/u/.d3k/chrome-profiles/p", true⟩
              DateTimeFormat.utc [⟨⟨2026, 10, 11, 1, 2, 3, 4⟩, false, "ready"⟩] [] →
          e.source ≠ Source.BROWSER) :=
  ⟨rfl, c5_servers_only_no_browser _ _ _ _ rfl⟩

/-- While no readiness signal has arrived and the timeout has not elapsed,
the coordinator stays in WAITING_READY. -/
theorem coord_waiting_of_not_ready (marker portOpen : Nat → Bool) (timeout t : Nat)
    (ht : t < timeout) (h : ∀ j, j < t → (marker j || portOpen j) = false) :
    coordAt marker portOpen timeout t = CoordState.WAITING_READY := by
  induction t with
  | zero => rfl
  | succ k ih =>
    have hk : coordAt marker portOpen timeout k = CoordState.WAITING_READY :=
      ih (by omega) (fun j hj => h j (by omega))
    have hne : ¬ timeout ≤ k + 1 := by omega
    simp only [coordAt, hk, h k (by omega), if_neg hne]
    rfl

/-- With no readiness signal at all, the coordinator fails exactly when the
timeout elapses. -/
theorem coord_failed_at_timeout (marker portOpen : Nat → Bool) (timeout : Nat)
    (hpos : 0 < timeout) (h : ∀ j, (marker j || portOpen j) = false) :
    coordAt marker portOpen timeout timeout = CoordState.FAILED := by
  obtain ⟨k, rfl⟩ : ∃ k, timeout = k + 1 := ⟨timeout - 1, by omega⟩
  have hk : coordAt marker portOpen (k + 1) k = CoordState.WAITING_READY :=
    coord_waiting_of_not_ready marker portOpen (k + 1) k (by omega)
      (fun j _ => h j)
  have hle : k + 1 ≤ k + 1 := le_refl _
  simp only [coordAt, hk, h k, if_pos hle]
  rfl

/-- C2: a server whose stdout emits the ready marker within the readiness
timeout drives the coordinator to MONITORING within that timeout, and a
server that never emits the marker while the port never opens drives it to
FAILED once the timeout elapses and never before. -/
theorem c2_readiness (marker portOpen : Nat → Bool) (timeout : Nat)
    (hpos : 0 < timeout) :
    ((∃ k, k < timeout ∧ marker k = true) →
        ∃ t, t ≤ timeout ∧
          coordAt marker portOpen timeout t = CoordState.MONITORING) ∧
      ((∀ j, marker j = false) → (∀ j, portOpen j = false) →
        coordAt marker portOpen timeout timeout = CoordState.FAILED ∧
          ∀ t, t < timeout →
            coordAt marker portOpen timeout t ≠ CoordState.FAILED) := by
  constructor
  · rintro ⟨k, hk, hm⟩
    have hex : ∃ j, (marker j || portOpen j) = true := ⟨k, by simp [hm]⟩
    set m := Nat.find hex with hmdef
    have hmr : (marker m || portOpen m) = true := Nat.find_spec hex
    have hmle : m ≤ k := Nat.find_min' hex (by simp [hm])
    have hwait : coordAt marker portOpen timeout m = CoordState.WAITING_READY :=
      coord_waiting_of_not_ready marker portOpen timeout m (by omega)
        (fun j hj => by
          have := Nat.find_min hex hj
          simpa using this)
    refine ⟨m + 1, by omega, ?_⟩
    simp only [coordAt, hwait, hmr]
    rfl
  · intro hm hp
    refine ⟨coord_failed_at_timeout marker portOpen timeout hpos
      (fun j => by simp [hm j, hp j]), ?_⟩
    intro t ht
    rw [coord_waiting_of_not_ready marker portOpen timeout t ht
      (fun j _ => by simp [hm j, hp j])]
    intro hcontr
    exact CoordState.noConfusion hcontr

/-- Witness for C2: a marker at the second tick with timeout three reaches
MONITORING within the timeout, and with no marker and a closed port the
coordinator fails exactly at the timeout. -/
theorem c2_readiness_witness :
    0 < 3 ∧
      (((∃ k, k < 3 ∧ (fun j => j == 1) k = true) →
          ∃ t, t ≤ 3 ∧
            coordAt (fun j => j == 1) (fun _ : Nat => false) 3 t = CoordState.MONITORING) ∧
        ((∀ j, (fun j => j == 1) j = false) → (∀ j, (fun _ : Nat => false) j = false) →
          coordAt (fun j => j == 1) (fun _ : Nat => false) 3 3 = CoordState.FAILED ∧
            ∀ t, t < 3 →
              coordAt (fun j => j == 1) (fun _ : Nat => false) 3 t ≠ CoordState.FAILED)) :=
  ⟨by decide, c2_readiness (fun j => j == 1) (fun _ : Nat => false) 3 (by decide)⟩

/-- Digit characters decode to the digit they encode. -/
theorem dVal_dChar (k : Nat) (h : k < 10) : dVal (dChar k) = some k := by
  interval_cases k <;> rfl

/-- Two-digit rendering decodes to the rendered number. -/
theorem parse2_pad2 (n : Nat) (h : n < 100) :
    parse2 (dChar (n / 10)) (dChar (n % 10)) = some n := by
  have h1 : n / 10 < 10 := by omega
  have h2 : n % 10 < 10 := by omega
  simp [parse2, dVal_dChar _ h1, dVal_dChar _ h2]
  omega

/-- Three-digit rendering decodes to the rendered number. -/
theorem parse3_pad3 (n : Nat) (h : n < 1000) :
    parse3 (dChar (n / 100)) (dChar (n / 10 % 10)) (dChar (n % 10)) = some n := by
  have h1 : n / 100 < 10 := by omega
  have h2 : n / 10 % 10 < 10 := by omega
  have h3 : n % 10 < 10 := by omega
  simp [parse3, dVal_dChar _ h1, dVal_dChar _ h2, dVal_dChar _ h3]
  omega

/-- Four-digit rendering decodes to the rendered number. -/
theorem parse4_pad4 (n : Nat) (h : n < 10000) :
    parse4 (dChar (n / 1000)) (dChar (n / 100 % 10)) (dChar (n / 10 % 10))
      (dChar (n % 10)) = some n := by
  have h1 : n / 1000 < 10 := by omega
  have h2 : n / 100 % 10 < 10 := by omega
  have h3 : n / 10 % 10 < 10 := by omega
  have h4 : n % 10 < 10 := by omega
  simp [parse4, dVal_dChar _ h1, dVal_dChar _ h2, dVal_dChar _ h3, dVal_dChar _ h4]
  omega

/-- The ISO-8601 formatter and parser round-trip on valid clock readings. -/
theorem parseIso_formatUtc (t : ClockTime) (h : t.valid) :
    parseIso (formatUtc t) = some t := by
  obtain ⟨hy, hm1, hm2, hd1, hd2, hh, hmi, hs, hms⟩ := h
  simp only [parseIso, formatUtc, pad4, pad3, pad2, List.cons_append, List.nil_append]
  rw [parse4_pad4 t.year hy, parse2_pad2 t.month (by omega),
    parse2_pad2 t.day (by omega), parse2_pad2 t.hour (by omega),
    parse2_pad2 t.minute (by omega), parse2_pad2 t.second (by omega),
    parse3_pad3 t.ms (by omega)]
  simp [hm1, hm2, hd1, hd2, hh, hmi, hs]

/-- The twelve-hour dial reading is always between one and twelve. -/
theorem localHour12_bounds (t : ClockTime) :
    1 ≤ localHour12 t ∧ localHour12 t ≤ 12 := by
  unfold localHour12
  split <;> omega

/-- Locale-formatted timestamps of valid clock readings parse as valid
locale time strings. -/
theorem parseLocalTime_formatLocal (t : ClockTime) (h : t.valid) :
    (parseLocalTime (formatLocal t)).isSome = true := by
  obtain ⟨hy, hm1, hm2, hd1, hd2, hh, hmi, hs, hms⟩ := h
  obtain ⟨hl1, hl2⟩ := localHour12_bounds t
  by_cases h10 : localHour12 t < 10 <;> by_cases hpm : t.hour < 12
  · simp only [formatLocal, h10, hpm, ite_true, ite_false, pad2,
      List.cons_append, List.nil_append, parseLocalTime]
    rw [dVal_dChar (localHour12 t) (by omega), parse2_pad2 t.minute (by omega),
      parse2_pad2 t.second (by omega)]
    simp [meridiem, hl1, hmi, hs]
  · simp only [formatLocal, h10, hpm, ite_true, ite_false, pad2,
      List.cons_append, List.nil_append, parseLocalTime]
    rw [dVal_dChar (localHour12 t) (by omega), parse2_pad2 t.minute (by omega),
      parse2_pad2 t.second (by omega)]
    simp [meridiem, hl1, hmi, hs]
  · have h10' : 10 ≤ localHour12 t := by omega
    simp only [formatLocal, h10, hpm, ite_true, ite_false, pad2,
      List.cons_append, List.nil_append, parseLocalTime]
    rw [parse2_pad2 (localHour12 t) (by omega), parse2_pad2 t.minute (by omega),
      parse2_pad2 t.second (by omega)]
    simp [meridiem, h10', hl2, hmi, hs]
  · have h10' : 10 ≤ localHour12 t := by omega
    simp only [formatLocal, h10, hpm, ite_true, ite_false, pad2,
      List.cons_append, List.nil_append, parseLocalTime]
    rw [parse2_pad2 (localHour12 t) (by omega), parse2_pad2 t.minute (by omega),
      parse2_pad2 t.second (by omega)]
    simp [meridiem, h10', hl2, hmi, hs]

/-- C7: every entry written with dateTimeFormat utc carries a timestamp
that parses back as valid ISO-8601 (round-tripping to the clock reading),
and every entry written with dateTimeFormat local carries a timestamp that
parses as a valid locale time string. -/
theorem c7_timestamp_roundtrip (e : RawEvent) (h : e.time.valid) :
    parseIso ((mkEntry DateTimeFormat.utc e).timestamp) = some e.time ∧
      (parseLocalTime ((mkEntry DateTimeFormat.localTime e).timestamp)).isSome = true := by
  constructor
  · show parseIso (formatTimestamp DateTimeFormat.utc e.time) = some e.time
    exact parseIso_formatUtc e.time h
  · show (parseLocalTime (formatTimestamp DateTimeFormat.localTime e.time)).isSome = true
    exact parseLocalTime_formatLocal e.time h

/-- Witness for C7 at an afternoon clock reading. -/
theorem c7_timestamp_roundtrip_witness :
    (⟨2026, 10, 11, 13, 54, 3, 42⟩ : ClockTime).valid ∧
      (parseIso ((mkEntry DateTimeFormat.utc
            ⟨⟨2026, 10, 11, 13, 54, 3, 42⟩, Source.SERVER, EventType.STDOUT, "ok"⟩).timestamp) =
          some ⟨2026, 10, 11, 13, 54, 3, 42⟩ ∧
        (parseLocalTime ((mkEntry DateTimeFormat.localTime
            ⟨⟨2026, 10, 11, 13, 54, 3, 42⟩, Source.SERVER, EventType.STDOUT,
              "ok"⟩).timestamp)).isSome = true) :=
  ⟨by decide,
    c7_timestamp_roundtrip
      ⟨⟨2026, 10, 11, 13, 54, 3, 42⟩, Source.SERVER, EventType.STDOUT, "ok"⟩ (by decide)⟩

/-- Requests still unanswered once every event has been processed. -/
def netFinalPending : List NetEvent → List PendingReq → List PendingReq
  | [], pending => pending
  | NetEvent.request i m u t :: rest, pending =>
    netFinalPending rest (pending ++ [⟨i, m, u, t⟩])
  | NetEvent.response i _ _ :: rest, pending =>
    match pending.find? (fun p => p.id == i) with
    | some _ => netFinalPending rest (pending.eraseP (fun p => p.id == i))
    | none => netFinalPending rest pending

/-- Erasing the one element satisfying a predicate leaves none satisfying
it. -/
theorem countP_eraseP_of_one {α : Type} (p : α → Bool) (l : List α)
    (h : l.countP p = 1) : (l.eraseP p).countP p = 0 := by
  induction l with
  | nil => simp at h
  | cons a l ih =>
    by_cases hpa : p a = true
    · rw [List.eraseP_cons_of_pos hpa]
      rw [List.countP_cons, hpa] at h
      simpa using h
    · have hpa' : p a = false := by simpa using hpa
      rw [List.eraseP_cons_of_neg]
      · rw [List.countP_cons, hpa']
        rw [List.countP_cons, hpa'] at h
        simpa using ih (by simpa using h)
      · simp [hpa']

/-- Erasing by one predicate does not change the residue of a disjoint
predicate. -/
theorem filter_eraseP_other {α : Type} (p q : α → Bool) (l : List α)
    (h : ∀ x, p x = true → q x = false) :
    (l.eraseP p).filter q = l.filter q := by
  induction l with
  | nil => rfl
  | cons a l ih =>
    by_cases hpa : p a = true
    · rw [List.eraseP_cons_of_pos hpa, List.filter_cons, h a hpa]
      simp
    · have hpa' : p a = false := by simpa using hpa
      rw [List.eraseP_cons_of_neg (by simp [hpa'])]
      rw [List.filter_cons, List.filter_cons, ih]

/-- A singleton residue pins down the first match. -/
theorem find?_of_filter_singleton {α : Type} (p : α → Bool) (l : List α) (x : α)
    (h : l.filter p = [x]) : l.find? p = some x := by
  induction l with
  | nil => simp at h
  | cons a l ih =>
    by_cases hpa : p a = true
    · rw [List.filter_cons_of_pos hpa] at h
      obtain ⟨rfl, -⟩ := List.cons.inj h
      simp [List.find?, hpa]
    · have hpa' : p a = false := by simpa using hpa
      rw [List.filter_cons_of_neg (by simp [hpa'])] at h
      simp [List.find?, hpa', ih h]

/-- Request events with a given identifier: none in the empty list. -/
theorem reqCount_nil (r : Nat) : reqCount [] r = 0 := rfl

/-- A request event at the head contributes one when the identifier
matches. -/
theorem reqCount_cons_request (i : Nat) (m u : String) (t : Nat)
    (rest : List NetEvent) (r : Nat) :
    reqCount (NetEvent.request i m u t :: rest) r =
      reqCount rest r + (if i == r then 1 else 0) := by
  simp [reqCount, List.countP_cons]

/-- A response event at the head contributes nothing to the request count. -/
theorem reqCount_cons_response (i s t : Nat) (rest : List NetEvent) (r : Nat) :
    reqCount (NetEvent.response i s t :: rest) r = reqCount rest r := by
  simp [reqCount, List.countP_cons]

/-- No response is observed in the empty list. -/
theorem hasRespFor_nil (r : Nat) : hasRespFor [] r = false := rfl

/-- A request at the head never matches as a response. -/
theorem hasRespFor_cons_request (i : Nat) (m u : String) (t : Nat)
    (rest : List NetEvent) (r : Nat) :
    hasRespFor (NetEvent.request i m u t :: rest) r = hasRespFor rest r := by
  simp [hasRespFor]

/-- A response at the head matches when its identifier does. -/
theorem hasRespFor_cons_response (i s t : Nat) (rest : List NetEvent) (r : Nat) :
    hasRespFor (NetEvent.response i s t :: rest) r =
      ((i == r) || hasRespFor rest r) := by
  simp [hasRespFor]

/-- Observed responses distribute over concatenation. -/
theorem hasRespFor_append (l1 l2 : List NetEvent) (r : Nat) :
    hasRespFor (l1 ++ l2) r = (hasRespFor l1 r || hasRespFor l2 r) := by
  simp [hasRespFor]

/-- Pending counts distribute over concatenation. -/
theorem pendCount_append (l1 l2 : List PendingReq) (r : Nat) :
    pendCount (l1 ++ l2) r = pendCount l1 r + pendCount l2 r := by
  simp [pendCount, List.countP_append]

/-- Pending count of a singleton. -/
theorem pendCount_singleton (p : PendingReq) (r : Nat) :
    pendCount [p] r = if p.id == r then 1 else 0 := by
  simp [pendCount, List.countP_cons]

/-- The incomplete entries written at shutdown are never paired entries. -/
theorem countP_map_incomplete_paired (pending : List PendingReq) (r : Nat) :
    (pending.map fun p => NetEntry.incomplete p.id p.method p.url p.startTime).countP
      (isPairedWith r) = 0 := by
  induction pending with
  | nil => rfl
  | cons p l ih => simp [List.countP_cons, isPairedWith, ih]

/-- The incomplete entries written at shutdown count the pending requests
with the given identifier. -/
theorem countP_map_incomplete_incomplete (pending : List PendingReq) (r : Nat) :
    (pending.map fun p => NetEntry.incomplete p.id p.method p.url p.startTime).countP
      (isIncompleteWith r) = pendCount pending r := by
  induction pending with
  | nil => rfl
  | cons p l ih => simp [List.countP_cons, isIncompleteWith, pendCount, ih]

/-- An identifier neither pending nor requested yields no output entries at
all with that identifier. -/
theorem normalizeNet_absent_count (r : Nat) (events : List NetEvent) :
    ∀ pending : List PendingReq, pendCount pending r = 0 → reqCount events r = 0 →
      (normalizeNet events pending).countP (isPairedWith r) = 0 ∧
        (normalizeNet events pending).countP (isIncompleteWith r) = 0 := by
  induction events with
  | nil =>
    intro pending hp _
    refine ⟨?_, ?_⟩
    · simpa [normalizeNet] using countP_map_incomplete_paired pending r
    · rw [show normalizeNet [] pending =
          pending.map (fun p => NetEntry.incomplete p.id p.method p.url p.startTime)
          from rfl, countP_map_incomplete_incomplete]
      exact hp
  | cons ev rest ih =>
    intro pending hp hr
    cases ev with
    | request i m u t =>
      rw [reqCount_cons_request] at hr
      have hir : (i == r) = false := by
        by_contra hcon
        simp only [Bool.not_eq_false] at hcon
        rw [hcon] at hr
        simp at hr
      have hrest : reqCount rest r = 0 := by rw [hir] at hr; simpa using hr
      have hp' : pendCount (pending ++ [⟨i, m, u, t⟩]) r = 0 := by
        rw [pendCount_append, pendCount_singleton]
        simp [hir, hp]
      rw [show normalizeNet (NetEvent.request i m u t :: rest) pending =
          normalizeNet rest (pending ++ [⟨i, m, u, t⟩]) from rfl]
      exact ih _ hp' hrest
    | response i s t =>
      rw [reqCount_cons_response] at hr
      rw [show normalizeNet (NetEvent.response i s t :: rest) pending =
          (match pending.find? (fun p => p.id == i) with
           | some p => NetEntry.paired p.id p.method p.url s p.startTime t ::
               normalizeNet rest (pending.eraseP (fun p => p.id == i))
           | none => normalizeNet rest pending) from rfl]
      cases hf : pending.find? (fun p => p.id == i) with
      | none => simpa using ih pending hp hr
      | some q =>
        have hqmem : q ∈ pending := List.mem_of_find?_eq_some hf
        have hqr : (q.id == r) = false := by
          by_contra hcon
          simp only [Bool.not_eq_false] at hcon
          have hpos : 0 < pendCount pending r := by
            rw [pendCount]
            exact List.countP_pos_iff.mpr ⟨q, hqmem, hcon⟩
          omega
        have hpe : pendCount (pending.eraseP (fun p => p.id == i)) r = 0 := by
          have hsub : List.Sublist (pending.eraseP (fun p => p.id == i)) pending :=
            List.eraseP_sublist pending
          have hle := hsub.countP_le (fun p => p.id == r)
          rw [pendCount] at hp ⊢
          omega
        obtain ⟨hpc, hic⟩ := ih _ hpe hr
        constructor
        · simp [List.countP_cons, isPairedWith, hqr, hpc]
        · simp [List.countP_cons, isIncompleteWith, hic]

/-- An identifier pending exactly once and never requested again yields
exactly one output entry with that identifier: paired when a response with
it is observed, incomplete otherwise. -/
theorem normalizeNet_pending_one (r : Nat) (events : List NetEvent) :
    ∀ pending : List PendingReq, pendCount pending r = 1 → reqCount events r = 0 →
      (normalizeNet events pending).countP (isPairedWith r) =
          (if hasRespFor events r then 1 else 0) ∧
        (normalizeNet events pending).countP (isIncompleteWith r) =
          (if hasRespFor events r then 0 else 1) := by
  induction events with
  | nil =>
    intro pending hp _
    rw [hasRespFor_nil]
    constructor
    · simpa [normalizeNet] using countP_map_incomplete_paired pending r
    · rw [show normalizeNet [] pending =
          pending.map (fun p => NetEntry.incomplete p.id p.method p.url p.startTime)
          from rfl, countP_map_incomplete_incomplete]
      simpa using hp
  | cons ev rest ih =>
    intro pending hp hr
    cases ev with
    | request i m u t =>
      rw [reqCount_cons_request] at hr
      have hir : (i == r) = false := by
        by_contra hcon
        simp only [Bool.not_eq_false] at hcon
        rw [hcon] at hr
        simp at hr
      have hrest : reqCount rest r = 0 := by rw [hir] at hr; simpa using hr
      have hp' : pendCount (pending ++ [⟨i, m, u, t⟩]) r = 1 := by
        rw [pendCount_append, pendCount_singleton]
        simp [hir, hp]
      rw [show normalizeNet (NetEvent.request i m u t :: rest) pending =
          normalizeNet rest (pending ++ [⟨i, m, u, t⟩]) from rfl,
        hasRespFor_cons_request]
      exact ih _ hp' hrest
    | response i s t =>
      rw [reqCount_cons_response] at hr
      rw [show normalizeNet (NetEvent.response i s t :: rest) pending =
          (match pending.find? (fun p => p.id == i) with
           | some p => NetEntry.paired p.id p.method p.url s p.startTime t ::
               normalizeNet rest (pending.eraseP (fun p => p.id == i))
           | none => normalizeNet rest pending) from rfl,
        hasRespFor_cons_response]
      by_cases hir : (i == r) = true
      · have hieq : i = r := by simpa using hir
        subst hieq
        have hlen : (pending.filter (fun p => p.id == i)).length = 1 := by
          rw [← List.countP_eq_length_filter]
          exact hp
        obtain ⟨q, hq⟩ := List.length_eq_one.mp hlen
        have hf : pending.find? (fun p => p.id == i) = some q :=
          find?_of_filter_singleton _ _ _ hq
        have hqpred : (q.id == i) = true := by
          have hqmem : q ∈ pending.filter (fun p => p.id == i) := by
            rw [hq]
            exact List.mem_singleton.mpr rfl
          exact (List.mem_filter.mp hqmem).2
        have herase : pendCount (pending.eraseP (fun p => p.id == i)) i = 0 := by
          rw [pendCount]
          rw [pendCount] at hp
          exact countP_eraseP_of_one _ _ hp
        obtain ⟨hpc0, hic0⟩ := normalizeNet_absent_count i rest _ herase hr
        rw [hf]
        constructor
        · simp [List.countP_cons, isPairedWith, hqpred, hpc0]
        · simp [List.countP_cons, isIncompleteWith, hic0]
      · have hir' : (i == r) = false := by simpa using hir
        cases hf : pending.find? (fun p => p.id == i) with
        | none => simpa [hir'] using ih pending hp hr
        | some q =>
          have hq := List.find?_some hf
          have hqi : q.id = i := by simpa using hq
          have hqr : (q.id == r) = false := by simp [hqi, hir']
          have hfe : pendCount (pending.eraseP (fun p => p.id == i)) r = 1 := by
            rw [pendCount, List.countP_eq_length_filter,
              filter_eraseP_other (fun p => p.id == i) (fun p => p.id == r) pending
                (fun x hx => by
                  have : x.id = i := by simpa using hx
                  simp [this, hir'])]
            rw [pendCount, List.countP_eq_length_filter] at hp
            exact hp
          obtain ⟨hpc, hic⟩ := ih _ hfe hr
          constructor
          · simp [List.countP_cons, isPairedWith, hqr, hpc, hir']
          · simp [List.countP_cons, isIncompleteWith, hic, hir']

/-- When exactly one pending request carries the identifier and a response
with it is observed, the output contains a paired entry built from that
request's method, URL and start time. -/
theorem normalizeNet_pending_mem (r : Nat) (pr : PendingReq) (hid : pr.id = r)
    (events : List NetEvent) :
    ∀ pending : List PendingReq,
      pending.filter (fun q => q.id == r) = [pr] →
      reqCount events r = 0 → hasRespFor events r = true →
      ∃ s t2, NetEntry.paired r pr.method pr.url s pr.startTime t2 ∈
        normalizeNet events pending := by
  induction events with
  | nil =>
    intro pending _ _ hresp
    rw [hasRespFor_nil] at hresp
    exact absurd hresp (by simp)
  | cons ev rest ih =>
    intro pending hfil hr hresp
    cases ev with
    | request i m u t =>
      rw [reqCount_cons_request] at hr
      have hir : (i == r) = false := by
        by_contra hcon
        simp only [Bool.not_eq_false] at hcon
        rw [hcon] at hr
        simp at hr
      have hrest : reqCount rest r = 0 := by rw [hir] at hr; simpa using hr
      have hfil' : (pending ++ [(⟨i, m, u, t⟩ : PendingReq)]).filter
          (fun q => q.id == r) = [pr] := by
        rw [List.filter_append, hfil]
        simp [hir]
      rw [hasRespFor_cons_request] at hresp
      rw [show normalizeNet (NetEvent.request i m u t :: rest) pending =
          normalizeNet rest (pending ++ [⟨i, m, u, t⟩]) from rfl]
      exact ih _ hfil' hrest hresp
    | response i s t =>
      rw [reqCount_cons_response] at hr
      rw [show normalizeNet (NetEvent.response i s t :: rest) pending =
          (match pending.find? (fun p => p.id == i) with
           | some p => NetEntry.paired p.id p.method p.url s p.startTime t ::
               normalizeNet rest (pending.eraseP (fun p => p.id == i))
           | none => normalizeNet rest pending) from rfl]
      by_cases hir : (i == r) = true
      · have hieq : i = r := by simpa using hir
        subst hieq
        have hf : pending.find? (fun p => p.id == i) = some pr :=
          find?_of_filter_singleton _ _ _ hfil
        refine ⟨s, t, ?_⟩
        rw [hf]
        show NetEntry.paired i pr.method pr.url s pr.startTime t ∈
          NetEntry.paired pr.id pr.method pr.url s pr.startTime t ::
            normalizeNet rest (pending.eraseP (fun p => p.id == i))
        rw [hid]
        exact List.mem_cons_self _ _
      · have hir' : (i == r) = false := by simpa using hir
        rw [hasRespFor_cons_response, hir'] at hresp
        simp only [Bool.false_or] at hresp
        cases hf : pending.find? (fun p => p.id == i) with
        | none => simpa using ih pending hfil hr hresp
        | some q =>
          have hfil' : (pending.eraseP (fun p => p.id == i)).filter
              (fun q => q.id == r) = [pr] := by
            rw [filter_eraseP_other (fun p => p.id == i) (fun p => p.id == r) pending
              (fun x hx => by
                have hxi : x.id = i := by simpa using hx
                simp [hxi, hir'])]
            exact hfil
          obtain ⟨s2, t2, hmem⟩ := ih _ hfil' hr hresp
          exact ⟨s2, t2, List.mem_cons_of_mem _ hmem⟩

/-- The normalizer's output is a block of paired entries followed by the
incomplete entries for the finally unanswered requests, written at session
end. -/
theorem normalizeNet_split (events : List NetEvent) :
    ∀ pending : List PendingReq, ∃ ps,
      normalizeNet events pending =
          ps ++ (netFinalPending events pending).map
            (fun p => NetEntry.incomplete p.id p.method p.url p.startTime) ∧
        ∀ e ∈ ps, ∃ i mm uu s t1 t2, e = NetEntry.paired i mm uu s t1 t2 := by
  induction events with
  | nil =>
    intro pending
    exact ⟨[], by simp [normalizeNet, netFinalPending], by simp⟩
  | cons ev rest ih =>
    intro pending
    cases ev with
    | request i m u t =>
      obtain ⟨ps, heq, hall⟩ := ih (pending ++ [⟨i, m, u, t⟩])
      refine ⟨ps, ?_, hall⟩
      rw [show normalizeNet (NetEvent.request i m u t :: rest) pending =
          normalizeNet rest (pending ++ [⟨i, m, u, t⟩]) from rfl,
        show netFinalPending (NetEvent.request i m u t :: rest) pending =
          netFinalPending rest (pending ++ [⟨i, m, u, t⟩]) from rfl]
      exact heq
    | response i s t =>
      rw [show ∀ pd : List PendingReq, normalizeNet (NetEvent.response i s t :: rest) pd =
          (match pd.find? (fun p => p.id == i) with
           | some p => NetEntry.paired p.id p.method p.url s p.startTime t ::
               normalizeNet rest (pd.eraseP (fun p => p.id == i))
           | none => normalizeNet rest pd) from fun _ => rfl]
      rw [show ∀ pd : List PendingReq, netFinalPending (NetEvent.response i s t :: rest) pd =
          (match pd.find? (fun p => p.id == i) with
           | some _ => netFinalPending rest (pd.eraseP (fun p => p.id == i))
           | none => netFinalPending rest pd) from fun _ => rfl]
      cases hf : pending.find? (fun p => p.id == i) with
      | none => exact ih pending
      | some q =>
        obtain ⟨ps, heq, hall⟩ := ih (pending.eraseP (fun p => p.id == i))
        refine ⟨NetEntry.paired q.id q.method q.url s q.startTime t :: ps, ?_, ?_⟩
        · rw [List.cons_append, heq]
        · intro e he
          rcases List.mem_cons.mp he with rfl | hmem
          · exact ⟨q.id, q.method, q.url, s, q.startTime, t, rfl⟩
          · exact hall e hmem

/-- Processing a prefix free of the tracked identifier, then its unique
request, then the rest, yields exactly one entry with that identifier:
paired with the request's data when a later response matches, incomplete
when no response matches. -/
theorem normalizeNet_unique_req_aux (r : Nat) (m u : String) (t : Nat)
    (ys : List NetEvent) (hys : reqCount ys r = 0) (xs : List NetEvent) :
    ∀ pending : List PendingReq,
      pending.filter (fun q => q.id == r) = [] → reqCount xs r = 0 →
      (normalizeNet (xs ++ NetEvent.request r m u t :: ys) pending).countP
          (isPairedWith r) = (if hasRespFor ys r then 1 else 0) ∧
        (normalizeNet (xs ++ NetEvent.request r m u t :: ys) pending).countP
          (isIncompleteWith r) = (if hasRespFor ys r then 0 else 1) ∧
        (hasRespFor ys r = true →
          ∃ s t2, NetEntry.paired r m u s t t2 ∈
            normalizeNet (xs ++ NetEvent.request r m u t :: ys) pending) := by
  induction xs with
  | nil =>
    intro pending hfil _
    have hp0 : pendCount pending r = 0 := by
      rw [pendCount, List.countP_eq_length_filter, hfil]
      rfl
    have hpc : pendCount (pending ++ [(⟨r, m, u, t⟩ : PendingReq)]) r = 1 := by
      rw [pendCount_append, pendCount_singleton]
      simp [hp0]
    rw [show ([] : List NetEvent) ++ NetEvent.request r m u t :: ys =
        NetEvent.request r m u t :: ys from rfl,
      show normalizeNet (NetEvent.request r m u t :: ys) pending =
        normalizeNet ys (pending ++ [⟨r, m, u, t⟩]) from rfl]
    obtain ⟨h1, h2⟩ := normalizeNet_pending_one r ys _ hpc hys
    have hfil2 : (pending ++ [(⟨r, m, u, t⟩ : PendingReq)]).filter
        (fun q => q.id == r) = [⟨r, m, u, t⟩] := by
      rw [List.filter_append, hfil]
      simp
    exact ⟨h1, h2, fun hresp =>
      normalizeNet_pending_mem r ⟨r, m, u, t⟩ rfl ys _ hfil2 hys hresp⟩
  | cons ev xs ih =>
    intro pending hfil hxs
    cases ev with
    | request i mm uu tt =>
      rw [reqCount_cons_request] at hxs
      have hir : (i == r) = false := by
        by_contra hcon
        simp only [Bool.not_eq_false] at hcon
        rw [hcon] at hxs
        simp at hxs
      have hxs' : reqCount xs r = 0 := by rw [hir] at hxs; simpa using hxs
      have hfil' : (pending ++ [(⟨i, mm, uu, tt⟩ : PendingReq)]).filter
          (fun q => q.id == r) = [] := by
        rw [List.filter_append, hfil]
        simp [hir]
      rw [show (NetEvent.request i mm uu tt :: xs) ++ NetEvent.request r m u t :: ys =
          NetEvent.request i mm uu tt :: (xs ++ NetEvent.request r m u t :: ys)
          from rfl,
        show normalizeNet
            (NetEvent.request i mm uu tt :: (xs ++ NetEvent.request r m u t :: ys))
            pending =
          normalizeNet (xs ++ NetEvent.request r m u t :: ys)
            (pending ++ [⟨i, mm, uu, tt⟩]) from rfl]
      exact ih _ hfil' hxs'
    | response i ss tt =>
      rw [reqCount_cons_response] at hxs
      rw [show (NetEvent.response i ss tt :: xs) ++ NetEvent.request r m u t :: ys =
          NetEvent.response i ss tt :: (xs ++ NetEvent.request r m u t :: ys)
          from rfl,
        show normalizeNet
            (NetEvent.response i ss tt :: (xs ++ NetEvent.request r m u t :: ys))
            pending =
          (match pending.find? (fun p => p.id == i) with
           | some p => NetEntry.paired p.id p.method p.url ss p.startTime tt ::
               normalizeNet (xs ++ NetEvent.request r m u t :: ys)
                 (pending.eraseP (fun p => p.id == i))
           | none => normalizeNet (xs ++ NetEvent.request r m u t :: ys) pending)
          from rfl]
      cases hf : pending.find? (fun p => p.id == i) with
      | none => simpa using ih pending hfil hxs
      | some q =>
        have hq := List.find?_some hf
        have hqi : q.id = i := by simpa using hq
        have hqmem : q ∈ pending := List.mem_of_find?_eq_some hf
        have hqr : (q.id == r) = false := by
          by_contra hcon
          simp only [Bool.not_eq_false] at hcon
          have hmemf : q ∈ pending.filter (fun q => q.id == r) :=
            List.mem_filter.mpr ⟨hqmem, hcon⟩
          rw [hfil] at hmemf
          exact absurd hmemf (List.not_mem_nil q)
        have hir : (i == r) = false := by
          rw [hqi] at hqr
          exact hqr
        have hfil' : (pending.eraseP (fun p => p.id == i)).filter
            (fun q => q.id == r) = [] := by
          rw [filter_eraseP_other (fun p => p.id == i) (fun p => p.id == r) pending
            (fun x hx => by
              have hxi : x.id = i := by simpa using hx
              simp [hxi, hir])]
          exact hfil
        obtain ⟨h1, h2, h3⟩ := ih _ hfil' hxs
        refine ⟨?_, ?_, fun hresp => ?_⟩
        · simp [List.countP_cons, isPairedWith, hqr, h1]
        · simp [List.countP_cons, isIncompleteWith, h2]
        · obtain ⟨s2, t2, hmem⟩ := h3 hresp
          exact ⟨s2, t2, List.mem_cons_of_mem _ hmem⟩

/-- C6: for a session whose network events contain exactly one request with
identifier r, the deterministic, I/O-free Normalizer emits exactly one
paired entry with r — carrying the request's method and URL, a response
status and both timings — when some response with r follows the request,
and exactly one incomplete entry with r when no response with r is ever
observed; all incomplete entries sit after the paired block, emitted at
session end. -/
theorem c6_network_pairing (xs ys : List NetEvent) (r : Nat) (m u : String)
    (t : Nat) (hxs : reqCount xs r = 0) (hys : reqCount ys r = 0) :
    (hasRespFor ys r = true →
        (normalizeNet (xs ++ NetEvent.request r m u t :: ys) []).countP
            (isPairedWith r) = 1 ∧
          (normalizeNet (xs ++ NetEvent.request r m u t :: ys) []).countP
            (isIncompleteWith r) = 0 ∧
          ∃ s t2, NetEntry.paired r m u s t t2 ∈
            normalizeNet (xs ++ NetEvent.request r m u t :: ys) []) ∧
      (hasRespFor (xs ++ NetEvent.request r m u t :: ys) r = false →
        (normalizeNet (xs ++ NetEvent.request r m u t :: ys) []).countP
            (isPairedWith r) = 0 ∧
          (normalizeNet (xs ++ NetEvent.request r m u t :: ys) []).countP
            (isIncompleteWith r) = 1) ∧
      ∃ ps, normalizeNet (xs ++ NetEvent.request r m u t :: ys) [] =
          ps ++ (netFinalPending (xs ++ NetEvent.request r m u t :: ys) []).map
            (fun p => NetEntry.incomplete p.id p.method p.url p.startTime) ∧
        ∀ e ∈ ps, ∃ i mm uu s t1 t2, e = NetEntry.paired i mm uu s t1 t2 := by
  obtain ⟨h1, h2, h3⟩ := normalizeNet_unique_req_aux r m u t ys hys xs [] rfl hxs
  refine ⟨fun hresp => ⟨?_, ?_, h3 hresp⟩, fun hnone => ?_, normalizeNet_split _ []⟩
  · rw [h1, hresp]
    rfl
  · rw [h2, hresp]
    rfl
  · have hysn : hasRespFor ys r = false := by
      rw [hasRespFor_append, hasRespFor_cons_request] at hnone
      rcases Bool.or_eq_false_iff.mp hnone with ⟨-, h⟩
      exact h
    exact ⟨by rw [h1, hysn]; rfl, by rw [h2, hysn]; rfl⟩

/-- Witness for C6 at a stray earlier response, one request, and a matching
later response; the incomplete half is exercised through the same paired
conclusion shape by the count equalities. -/
theorem c6_network_pairing_witness :
    reqCount [NetEvent.response 9 200 2] 7 = 0 ∧
      reqCount [NetEvent.response 7 200 5] 7 = 0 ∧
      ((hasRespFor [NetEvent.response 7 200 5] 7 = true →
          (normalizeNet ([NetEvent.response 9 200 2] ++
              NetEvent.request 7 "GET" "/a" 1 :: [NetEvent.response 7 200 5]) []).countP
              (isPairedWith 7) = 1 ∧
            (normalizeNet ([NetEvent.response 9 200 2] ++
                NetEvent.request 7 "GET" "/a" 1 :: [NetEvent.response 7 200 5]) []).countP
              (isIncompleteWith 7) = 0 ∧
            ∃ s t2, NetEntry.paired 7 "GET" "/a" s 1 t2 ∈
              normalizeNet ([NetEvent.response 9 200 2] ++
                NetEvent.request 7 "GET" "/a" 1 :: [NetEvent.response 7 200 5]) []) ∧
        (hasRespFor ([NetEvent.response 9 200 2] ++
            NetEvent.request 7 "GET" "/a" 1 :: [NetEvent.response 7 200 5]) 7 = false →
          (normalizeNet ([NetEvent.response 9 200 2] ++
              NetEvent.request 7 "GET" "/a" 1 :: [NetEvent.response 7 200 5]) []).countP
              (isPairedWith 7) = 0 ∧
            (normalizeNet ([NetEvent.response 9 200 2] ++
                NetEvent.request 7 "GET" "/a" 1 :: [NetEvent.response 7 200 5]) []).countP
              (isIncompleteWith 7) = 1) ∧
        ∃ ps, normalizeNet ([NetEvent.response 9 200 2] ++
              NetEvent.request 7 "GET" "/a" 1 :: [NetEvent.response 7 200 5]) [] =
            ps ++ (netFinalPending ([NetEvent.response 9 200 2] ++
                NetEvent.request 7 "GET" "/a" 1 :: [NetEvent.response 7 200 5]) []).map
              (fun p => NetEntry.incomplete p.id p.method p.url p.startTime) ∧
          ∀ e ∈ ps, ∃ i mm uu s t1 t2, e = NetEntry.paired i mm uu s t1 t2) :=
  ⟨by decide, by decide,
    c6_network_pairing [NetEvent.response 9 200 2] [NetEvent.response 7 200 5]
      7 "GET" "/a" 1 (by decide) (by decide)⟩

end Dev3000
